import Mathlib

/-!
Verification of the entity-word extraction script
(src/examples/transformers/entity.py) against its specification.

The script delegates all recognition work to an external NER pipeline and
only copies the "word" field of each returned entity record, in order, into
a fresh list.  We embed the script shallowly: entity records become
string-keyed dictionaries, the extraction loop becomes explicit state
passing, and the external pipeline library becomes oracle parameters.
-/

/-- A field value inside an entity record returned by the NER pipeline:
surface-text fields (such as "word" and "entity_group") hold strings, while
scores and character offsets are numeric and are never consumed by the
script. -/
inductive Value where
  | str : String → Value
  | num : Int → Value
deriving DecidableEq

/-- Whether a field value is a string. -/
def Value.isStr : Value → Bool
  | Value.str _ => true
  | Value.num _ => false

/-- An entity record returned by the pipeline: a dictionary from string keys
(such as "word", "entity_group", "score", "start", "end") to field values. -/
abbrev Record := List (String × Value)

/-- Dictionary lookup: the value stored at the given key, if any. -/
def Record.getVal : Record → String → Option Value
  | [], _ => none
  | (k, v) :: rest, key => if k = key then some v else Record.getVal rest key

/-- The Python subscript r[key] on a dictionary record: the value stored at
the key, or a KeyError carrying the missing key. -/
def Record.getItem (r : Record) (key : String) : Except String Value :=
  match r.getVal key with
  | some v => Except.ok v
  | none => Except.error key

/-- The variables of the extraction loop of entity.py: the list bound to
entities on line 5 and the accumulator bound to values on line 7. -/
structure LoopState where
  entities : List Record
  values : List Value
deriving DecidableEq

/-- Lines 7 to 9 of entity.py, the loop

  for entity in entities:
      values.append(entity["word"])

The first argument is the list of records still to be visited.  A record
without a "word" key raises a KeyError there; the raise leaves the variables
exactly as they were at that moment. -/
def runLoop : List Record → LoopState → LoopState × Option String
  | [], s => (s, none)
  | e :: rest, s =>
    match e.getItem "word" with
    | Except.ok w => runLoop rest { s with values := s.values ++ [w] }
    | Except.error k => (s, some k)

/-- Lines 7 to 11 of entity.py: run the extraction loop over the pipeline
result starting from an empty accumulator and bind the accumulated list to
result; a missing "word" key surfaces as a KeyError. -/
def extractWords (entities : List Record) : Except String (List Value) :=
  match runLoop entities { entities := entities, values := [] } with
  | (s, none) => Except.ok s.values
  | (_, some k) => Except.error k

/-- Line 4 of entity.py. -/
def moduleText : String := "Apple was founded by Steve Jobs in Cupertino, California."

/-- An error surfaced by a run of the script: either an exception propagated
unchanged from the external pipeline (construction or invocation), or a
KeyError raised by the extraction loop itself. -/
inductive ScriptError (E : Type) where
  | pipeline : E → ScriptError E
  | keyError : String → ScriptError E
deriving DecidableEq

/-- The external-pipeline portion of the script, with the library modelled
as Except-valued oracles: line 3 constructs the pipeline object and line 5
invokes it on the text; a failure of either step is that step's error. -/
def pipelineStep {E P : Type} (construct : Except E P)
    (invoke : P → String → Except E (List Record)) (text : String) :
    Except E (List Record) :=
  match construct with
  | Except.error e => Except.error e
  | Except.ok p => invoke p text

/-- The whole script (lines 3 to 11) over Except-valued pipeline oracles:
the pipeline step followed by the extraction loop, with no catching,
classifying or retrying of errors anywhere. -/
def runScript {E P : Type} (construct : Except E P)
    (invoke : P → String → Except E (List Record)) (text : String) :
    Except (ScriptError E) (List Value) :=
  match pipelineStep construct invoke text with
  | Except.error e => Except.error (ScriptError.pipeline e)
  | Except.ok entities =>
    match extractWords entities with
    | Except.ok vs => Except.ok vs
    | Except.error k => Except.error (ScriptError.keyError k)

/-- A call made by the script to the external pipeline library. -/
inductive PipelineEvent (P : Type) where
  | construct : String → Bool → P → PipelineEvent P
  | invoke : P → String → PipelineEvent P
deriving DecidableEq

/-- Whether a pipeline-library call is a pipeline construction. -/
def PipelineEvent.isConstruct {P : Type} : PipelineEvent P → Bool
  | PipelineEvent.construct _ _ _ => true
  | PipelineEvent.invoke _ _ => false

/-- Lines 3 to 11 of entity.py with the external library modelled as total
oracles, recording every call the script makes to the library: line 3
constructs the "ner" pipeline with grouped entities, line 5 invokes the
object bound on line 3 on the text of line 4, and lines 7 to 11 extract the
"word" fields of the result. -/
def runModuleTraced {P : Type} (mkPipeline : String → Bool → P)
    (callPipeline : P → String → List Record) :
    List (PipelineEvent P) × Except String (List Value) :=
  let ner := mkPipeline "ner" true
  let text := moduleText
  let entities := callPipeline ner text
  ([PipelineEvent.construct "ner" true ner, PipelineEvent.invoke ner text],
   extractWords entities)

/-! ### Helper lemmas about the extraction loop -/

/-- The loop never touches the entities variable. -/
theorem runLoop_entities : ∀ (l : List Record) (s : LoopState),
    (runLoop l s).1.entities = s.entities
  | [], _ => rfl
  | e :: rest, s => by
    cases h : e.getItem "word" with
    | ok w => simpa [runLoop, h] using runLoop_entities rest _
    | error k => simp [runLoop, h]

/-- When every visited record holds the matching word, the loop succeeds and
appends exactly those words, in order. -/
theorem runLoop_ok_forall₂ {l : List Record} {ws : List Value}
    (h : List.Forall₂ (fun r w => Record.getVal r "word" = some w) l ws) :
    ∀ s : LoopState,
      runLoop l s = ({ entities := s.entities, values := s.values ++ ws }, none) := by
  induction h with
  | nil => intro s; simp [runLoop]
  | cons hrw htail ih =>
    intro s
    simp only [runLoop, Record.getItem, hrw]
    rw [ih]
    simp

/-- The loop succeeds exactly when every visited record has a "word" key. -/
theorem runLoop_none_iff : ∀ (l : List Record) (s : LoopState),
    (runLoop l s).2 = none ↔ ∀ r ∈ l, (Record.getVal r "word").isSome
  | [], s => by simp [runLoop]
  | e :: rest, s => by
    cases h : Record.getVal e "word" with
    | some w =>
      simp only [runLoop, Record.getItem, h]
      rw [runLoop_none_iff rest]
      simp [h]
    | none =>
      simp [runLoop, Record.getItem, h]

/-- The loop appends at most one element per visited record. -/
theorem runLoop_values_le : ∀ (l : List Record) (s : LoopState),
    (runLoop l s).1.values.length ≤ s.values.length + l.length
  | [], s => by simp [runLoop]
  | e :: rest, s => by
    cases h : Record.getItem e "word" with
    | ok w =>
      have h2 := runLoop_values_le rest { s with values := s.values ++ [w] }
      simp only [runLoop, h, List.length_cons]
      simp only [List.length_append, List.length_singleton] at h2
      omega
    | error k => simp [runLoop, h]

/-- On success the loop appends exactly one element per visited record. -/
theorem runLoop_values_len_of_none : ∀ (l : List Record) (s : LoopState),
    (runLoop l s).2 = none →
    (runLoop l s).1.values.length = s.values.length + l.length
  | [], s => by simp [runLoop]
  | e :: rest, s => by
    cases h : Record.getItem e "word" with
    | ok w =>
      intro hnone
      simp only [runLoop, h, List.length_cons] at hnone ⊢
      have h2 := runLoop_values_len_of_none rest { s with values := s.values ++ [w] } hnone
      simp only [List.length_append, List.length_singleton] at h2
      omega
    | error k => simp [runLoop, h]

/-- Every value in the loop output was either already in the accumulator or
is the "word" field of some visited record. -/
theorem runLoop_values_mem : ∀ (l : List Record) (s : LoopState),
    ∀ v ∈ (runLoop l s).1.values,
      v ∈ s.values ∨ ∃ r ∈ l, Record.getVal r "word" = some v
  | [], s => by simp [runLoop]
  | e :: rest, s => by
    intro v hv
    cases h : Record.getVal e "word" with
    | some w =>
      simp only [runLoop, Record.getItem, h] at hv
      rcases runLoop_values_mem rest { s with values := s.values ++ [w] } v hv with hmem | ⟨r, hr, hw⟩
      · rcases List.mem_append.mp hmem with hmem | hmem
        · exact Or.inl hmem
        · have hvw : v = w := by simpa using hmem
          exact Or.inr ⟨e, by simp, by simp [h, hvw]⟩
      · exact Or.inr ⟨r, by simp [hr], hw⟩
    | none =>
      simp only [runLoop, Record.getItem, h] at hv
      exact Or.inl hv

/-- If every record before some record lacking a "word" key has one, the loop
raises the KeyError for "word" at that first offending record. -/
theorem runLoop_error_first : ∀ (pre : List Record) (bad : Record)
    (rest : List Record) (s : LoopState),
    (∀ r ∈ pre, (Record.getVal r "word").isSome) →
    Record.getVal bad "word" = none →
    (runLoop (pre ++ bad :: rest) s).2 = some "word"
  | [], bad, rest, s => by
    intro _ hbad
    simp [runLoop, Record.getItem, hbad]
  | p :: pre, bad, rest, s => by
    intro hpre hbad
    have hp : (Record.getVal p "word").isSome := hpre p (by simp)
    cases h : Record.getVal p "word" with
    | none => simp [h] at hp
    | some w =>
      simp only [List.cons_append, runLoop, Record.getItem, h]
      exact runLoop_error_first pre bad rest _ (fun r hr => hpre r (by simp [hr])) hbad

/-- Two runs of the loop over records agreeing pairwise on "word", started
from accumulators with equal contents, produce equal accumulators and equal
error statuses. -/
theorem runLoop_congr_word {l₁ l₂ : List Record}
    (h : List.Forall₂ (fun r₁ r₂ => Record.getVal r₁ "word" = Record.getVal r₂ "word") l₁ l₂) :
    ∀ s₁ s₂ : LoopState, s₁.values = s₂.values →
      (runLoop l₁ s₁).1.values = (runLoop l₂ s₂).1.values ∧
      (runLoop l₁ s₁).2 = (runLoop l₂ s₂).2 := by
  induction h with
  | nil => intro s₁ s₂ hv; simpa [runLoop] using hv
  | @cons a b l₁ l₂ hrw htail ih =>
    intro s₁ s₂ hv
    cases h₁ : Record.getVal a "word" with
    | some w =>
      have h₂ := hrw.symm.trans h₁
      simp only [runLoop, Record.getItem, h₁, h₂]
      exact ih _ _ (by simp [hv])
    | none =>
      have h₂ := hrw.symm.trans h₁
      simp only [runLoop, Record.getItem, h₁, h₂]
      exact ⟨hv, trivial⟩

/-! ### Claim theorems -/

/-- C1: for every sequence of entity records returned by the pipeline, the
extraction loop's output (the list bound to values and then result) is
exactly the list of each record's "word" field in the order the records were
received, with length and order preserved. -/
theorem extractor_output_is_ordered_words (ents : List Record) (ws : List Value)
    (h : List.Forall₂ (fun r w => Record.getVal r "word" = some w) ents ws) :
    extractWords ents = Except.ok ws := by
  unfold extractWords
  rw [runLoop_ok_forall₂ h { entities := ents, values := [] }]
  simp

theorem extractor_output_is_ordered_words_witness :
    extractWords [[("word", Value.str "Apple")],
        [("word", Value.str "Jobs"), ("score", Value.num 99)]] =
      Except.ok [Value.str "Apple", Value.str "Jobs"] :=
  extractor_output_is_ordered_words _ _
    (List.Forall₂.cons (by decide) (List.Forall₂.cons (by decide) List.Forall₂.nil))

/-- C2: on the program's own text (line 4), if the pipeline returns four
records whose "word" fields are "Apple", "Steve Jobs", "Cupertino",
"California", in that order, then the script's result is exactly that list
of strings. -/
theorem module_example_output {P : Type} (mk : String → Bool → P)
    (call : P → String → List Record)
    (h : List.Forall₂ (fun r w => Record.getVal r "word" = some w)
      (call (mk "ner" true) moduleText)
      [Value.str "Apple", Value.str "Steve Jobs", Value.str "Cupertino",
        Value.str "California"]) :
    (runModuleTraced mk call).2 =
      Except.ok [Value.str "Apple", Value.str "Steve Jobs", Value.str "Cupertino",
        Value.str "California"] := by
  show extractWords (call (mk "ner" true) moduleText) = _
  unfold extractWords
  rw [runLoop_ok_forall₂ h]
  simp

theorem module_example_output_witness :
    (runModuleTraced (fun _ _ => ())
      (fun _ _ => [[("word", Value.str "Apple"), ("entity_group", Value.str "ORG")],
        [("word", Value.str "Steve Jobs"), ("entity_group", Value.str "PER")],
        [("word", Value.str "Cupertino"), ("entity_group", Value.str "LOC")],
        [("word", Value.str "California"), ("entity_group", Value.str "LOC")]])).2 =
      Except.ok [Value.str "Apple", Value.str "Steve Jobs", Value.str "Cupertino",
        Value.str "California"] :=
  module_example_output _ _
    (List.Forall₂.cons (by decide) (List.Forall₂.cons (by decide)
      (List.Forall₂.cons (by decide) (List.Forall₂.cons (by decide) List.Forall₂.nil))))

/-- C3: for every sequence of entity records, whenever the extractor returns
a list, its length is at most the number of records. -/
theorem extractor_output_length_le (ents : List Record) (vs : List Value)
    (h : extractWords ents = Except.ok vs) : vs.length ≤ ents.length := by
  unfold extractWords at h
  rcases hr : runLoop ents { entities := ents, values := [] } with ⟨s, o⟩
  cases o with
  | none =>
    rw [hr] at h
    have hle := runLoop_values_le ents { entities := ents, values := [] }
    rw [hr] at hle
    simp only [Except.ok.injEq] at h
    simpa [h] using hle
  | some k => rw [hr] at h; exact absurd h (by simp)

theorem extractor_output_length_le_witness :
    ([Value.str "Tim"] : List Value).length ≤
      ([[("word", Value.str "Tim"), ("score", Value.num 1)]] : List Record).length :=
  extractor_output_length_le _ _ rfl

/-- C6: the extraction loop never creates, mutates or destroys an entity
record: after the loop runs (to completion or up to a KeyError), the list
bound to entities is exactly, record for record and in the same order, the
list the pipeline returned. -/
theorem loop_preserves_entities (ents : List Record) :
    (runLoop ents { entities := ents, values := [] }).1.entities = ents :=
  runLoop_entities ents { entities := ents, values := [] }

/-- C8: if the pipeline returns no entity records, the extractor returns the
empty list rather than failing. -/
theorem extractor_empty : extractWords [] = Except.ok [] := rfl

/-- C4: the script catches, classifies and retries nothing, so under the
pipeline's documented contract (returned records expose a "word" field) the
script's result is an error exactly when the pipeline step fails, and it is
that very error, propagated unchanged. -/
theorem script_error_iff_pipeline_error {E P : Type} (construct : Except E P)
    (invoke : P → String → Except E (List Record)) (text : String)
    (hw : ∀ ents, pipelineStep construct invoke text = Except.ok ents →
      ∀ r ∈ ents, (Record.getVal r "word").isSome) :
    (∀ e : E, pipelineStep construct invoke text = Except.error e ↔
      runScript construct invoke text = Except.error (ScriptError.pipeline e)) ∧
    ∀ err, runScript construct invoke text = Except.error err →
      ∃ e : E, err = ScriptError.pipeline e ∧
        pipelineStep construct invoke text = Except.error e := by
  cases hp : pipelineStep construct invoke text with
  | error e₀ =>
    have hs : runScript construct invoke text = Except.error (ScriptError.pipeline e₀) := by
      unfold runScript
      rw [hp]
    constructor
    · intro e
      rw [hs]
      simp [Except.error.injEq, ScriptError.pipeline.injEq]
    · intro err herr
      rw [hs] at herr
      simp only [Except.error.injEq] at herr
      exact ⟨e₀, herr.symm, rfl⟩
  | ok ents =>
    have hwords := hw ents hp
    have hnone : (runLoop ents { entities := ents, values := [] }).2 = none :=
      (runLoop_none_iff ents { entities := ents, values := [] }).mpr hwords
    rcases hrl : runLoop ents { entities := ents, values := [] } with ⟨s, o⟩
    rw [hrl] at hnone
    have ho : o = none := hnone
    subst ho
    have hex : extractWords ents = Except.ok s.values := by
      unfold extractWords
      rw [hrl]
    have hs : runScript construct invoke text = Except.ok s.values := by
      unfold runScript
      rw [hp]
      show (match extractWords ents with
        | Except.ok vs => Except.ok vs
        | Except.error k => Except.error (ScriptError.keyError k)) = Except.ok s.values
      rw [hex]
    constructor
    · intro e
      rw [hs]
      constructor
      · intro h; exact absurd h (by simp)
      · intro h; exact absurd h (by simp)
    · intro err herr
      rw [hs] at herr
      exact absurd herr (by simp)

theorem script_error_iff_pipeline_error_witness :
    runScript (Except.error "model unavailable")
        (fun (_ : Unit) (_ : String) => Except.ok ([] : List Record)) moduleText =
      Except.error (ScriptError.pipeline "model unavailable") :=
  ((script_error_iff_pipeline_error (Except.error "model unavailable")
      (fun _ _ => Except.ok []) moduleText
      (fun _ h => absurd h (by simp [pipelineStep]))).1 "model unavailable").mp rfl

/-- C5: in any run of the script, the pipeline constructor is called exactly
once, at module load (line 3), with task "ner" and grouped entities, and
every pipeline invocation in the run uses the very object that construction
returned; no second construction ever occurs. -/
theorem pipeline_constructed_once {P : Type} (mk : String → Bool → P)
    (call : P → String → List Record) :
    (((runModuleTraced mk call).1.filter
        (fun ev => PipelineEvent.isConstruct ev)).length = 1 ∧
      PipelineEvent.construct "ner" true (mk "ner" true) ∈ (runModuleTraced mk call).1) ∧
    ∀ p t, PipelineEvent.invoke p t ∈ (runModuleTraced mk call).1 → p = mk "ner" true := by
  refine ⟨⟨?_, ?_⟩, ?_⟩
  · simp [runModuleTraced, PipelineEvent.isConstruct]
  · simp [runModuleTraced]
  · intro p t h
    simp only [runModuleTraced, List.mem_cons, List.not_mem_nil, or_false] at h
    rcases h with h | h
    · exact absurd h (by simp)
    · simp only [PipelineEvent.invoke.injEq] at h
      exact h.1

theorem pipeline_constructed_once_witness :
    (0 : Nat) = (fun (_ : String) (_ : Bool) => (0 : Nat)) "ner" true :=
  (pipeline_constructed_once (fun _ _ => (0 : Nat)) (fun _ _ => ([] : List Record))).2
    0 moduleText (by simp [runModuleTraced])

/-- C7: the extractor consumes a single string (the text of line 4) and,
provided every record's "word" field is a string, every element of the list
it returns is a string. -/
theorem extractor_output_all_strings (ents : List Record) (vs : List Value)
    (hents : ∀ r ∈ ents, ∀ v, Record.getVal r "word" = some v → v.isStr = true)
    (h : extractWords ents = Except.ok vs) :
    ∀ v ∈ vs, v.isStr = true := by
  intro v hv
  unfold extractWords at h
  rcases hr : runLoop ents { entities := ents, values := [] } with ⟨s, o⟩
  rw [hr] at h
  cases o with
  | none =>
    simp only [Except.ok.injEq] at h
    subst h
    have hm := runLoop_values_mem ents { entities := ents, values := [] } v
      (by rw [hr]; exact hv)
    rcases hm with hmem | ⟨r, hrmem, hword⟩
    · exact absurd hmem (List.not_mem_nil v)
    · exact hents r hrmem v hword
  | some k => exact absurd h (by simp)

theorem extractor_output_all_strings_witness :
    Value.isStr (Value.str "Apple") = true :=
  extractor_output_all_strings [[("word", Value.str "Apple")]] [Value.str "Apple"]
    (by
      intro r hr v hv
      simp only [List.mem_singleton] at hr
      subst hr
      simp [Record.getVal] at hv
      subst hv
      rfl)
    rfl (Value.str "Apple") (by simp)

/-- C9: extraction fails exactly when some record lacks a "word" field: when
every record has one, the loop completes with exactly one word per record;
when some record lacks one, the subscript raises the KeyError for key "word"
at the first such record. -/
theorem extractor_fails_iff_missing_word (ents : List Record) :
    ((∀ r ∈ ents, (Record.getVal r "word").isSome) ↔
      ∃ vs, extractWords ents = Except.ok vs ∧ vs.length = ents.length) ∧
    ∀ pre bad rest, ents = pre ++ bad :: rest →
      (∀ r ∈ pre, (Record.getVal r "word").isSome) →
      Record.getVal bad "word" = none →
      extractWords ents = Except.error "word" := by
  constructor
  · constructor
    · intro hall
      have hnone := (runLoop_none_iff ents { entities := ents, values := [] }).mpr hall
      have hlen := runLoop_values_len_of_none ents { entities := ents, values := [] } hnone
      rcases hr : runLoop ents { entities := ents, values := [] } with ⟨s, o⟩
      rw [hr] at hnone hlen
      have ho : o = none := hnone
      subst ho
      refine ⟨s.values, ?_, ?_⟩
      · unfold extractWords
        rw [hr]
      · simpa using hlen
    · rintro ⟨vs, hvs, _⟩ r hrmem
      unfold extractWords at hvs
      rcases hr : runLoop ents { entities := ents, values := [] } with ⟨s, o⟩
      rw [hr] at hvs
      cases o with
      | none =>
        have hnone : (runLoop ents { entities := ents, values := [] }).2 = none := by
          rw [hr]
        exact (runLoop_none_iff ents { entities := ents, values := [] }).mp hnone r hrmem
      | some k => exact absurd hvs (by simp)
  · rintro pre bad rest rfl hpre hbad
    have h2 := runLoop_error_first pre bad rest
      { entities := pre ++ bad :: rest, values := [] } hpre hbad
    unfold extractWords
    rcases hr : runLoop (pre ++ bad :: rest)
      { entities := pre ++ bad :: rest, values := [] } with ⟨s, o⟩
    rw [hr] at h2
    have ho : o = some "word" := h2
    subst ho
    rfl

theorem extractor_fails_iff_missing_word_witness :
    extractWords [[("word", Value.str "Apple")], [("score", Value.num 7)]] =
      Except.error "word" :=
  (extractor_fails_iff_missing_word _).2 [[("word", Value.str "Apple")]]
    [("score", Value.num 7)] [] rfl (by decide) (by decide)

/-- C10: the extractor's output depends only on the "word" fields: two
pipeline results of equal length whose records agree pairwise on "word" but
may differ on every other field (label, score, offsets) give identical
results. -/
theorem extractor_depends_only_on_word (ents₁ ents₂ : List Record)
    (h : List.Forall₂
      (fun r₁ r₂ => Record.getVal r₁ "word" = Record.getVal r₂ "word") ents₁ ents₂) :
    extractWords ents₁ = extractWords ents₂ := by
  have hcong := runLoop_congr_word h { entities := ents₁, values := [] }
    { entities := ents₂, values := [] } rfl
  unfold extractWords
  rcases h1 : runLoop ents₁ { entities := ents₁, values := [] } with ⟨s₁, o₁⟩
  rcases h2 : runLoop ents₂ { entities := ents₂, values := [] } with ⟨s₂, o₂⟩
  rw [h1, h2] at hcong
  have hv2 : s₁.values = s₂.values := hcong.1
  have ho2 : o₁ = o₂ := hcong.2
  subst ho2
  cases o₁ with
  | none =>
    show Except.ok s₁.values = Except.ok s₂.values
    rw [hv2]
  | some k => rfl

theorem extractor_depends_only_on_word_witness :
    extractWords [[("word", Value.str "Apple"), ("score", Value.num 1)]] =
      extractWords [[("word", Value.str "Apple"), ("score", Value.num 2),
        ("entity_group", Value.str "ORG")]] :=
  extractor_depends_only_on_word _ _
    (List.Forall₂.cons (by decide) List.Forall₂.nil)
